import Mathlib

/-!
# Verification of the SMIC portfolio reconstruction and valuation engine

Shallow embedding of `generate_portfolio_analysis` (src/analysis_core.py; the
module-level script src/smic.py is line-for-line the same computation) over
exact rationals.

Modelling conventions:
* Trading days are indices `0, 1, ..., numDays - 1` into the (business-day
  reindexed, forward-filled) price table; each transaction carries the index
  of the trading day its `invest_date` resolves to with pandas
  `get_indexer(..., method='nearest')` (analysis_core.py line 113).
* Prices are `Option ℚ`: `none` models a NaN cell of the pandas frame.
* Money and unit counts are `ℚ` (the source uses IEEE floats; every claim is
  settled over exact arithmetic).  Rat division by zero is `0` in Lean; the
  source's float pipeline maps the corresponding cells to `0` as well via
  `.fillna(0)` and `.replace([inf, -inf], 0)` (lines 203, 211, 214, 216),
  except where noted in a comment next to the definition.
* Fallible steps (`raise`, an uncaught `ZeroDivisionError`) are `Except`.
-/

namespace SMIC

/-- A row of `data/transactions.csv` (analysis_core.py lines 76-82, 118-121).
`day` is the row's `invest_date` already resolved to the nearest trading-day
index of the truncated price table (line 113-114); `amount = none` models a
NaN `amount_invested`; `shares` defaults to 0 when the column is absent. -/
structure Txn where
  sector : String
  ticker : String
  day : Nat
  amount : Option ℚ
  shares : ℚ
deriving DecidableEq

/-- The price table `px` (analysis_core.py lines 92-104): adjusted closes at
business-day frequency, forward-filled, truncated to start at the resolved
start day.  `cols` is `px.columns`; `dates d` is the calendar-day number of
trading day `d` (used only for the duration statistics); `price c d = none`
models a NaN cell. -/
structure PriceTable where
  cols : List String
  numDays : Nat
  dates : Nat → Int
  price : String → Nat → Option ℚ

/-- The dense units matrix (line 107): held units per ticker per trading day. -/
abbrev Units := String → Nat → ℚ

/-- The Vanguard sector-ETF registry `V` (analysis_core.py lines 22-28),
in source (insertion) order, which the prefix fallback iterates in. -/
def V : List (String × String) :=
  [("Technology", "VGT"), ("Healthcare", "VHT"), ("Financials", "VFH"),
   ("Consumer_Discretionary", "VCR"), ("Communication_Services", "VOX"),
   ("Industrials", "VIS"), ("Consumer_Staples", "VDC"),
   ("Energy", "VDE"), ("Materials", "VAW"), ("Real_Estate", "VNQ"),
   ("Utilities", "VPU")]

/-- `V.keys()` in source order. -/
def Vkeys : List String := V.map Prod.fst

/-- `V.values()`. -/
def Vvalues : List String := V.map Prod.snd

/-- `V[k]` (`None` when `k` is not a key). -/
def Vget (s : String) : Option String :=
  (V.find? (fun p => p.1 == s)).map Prod.snd

/-- `sector_map` (analysis_core.py lines 31-43): a dict mapping each of the
eleven canonical sector names to itself. -/
def sectorMap : List (String × String) := Vkeys.map (fun k => (k, k))

/-- `sector_map.get(sector)`. -/
def sectorMapGet (s : String) : Option String :=
  (sectorMap.find? (fun p => p.1 == s)).map Prod.snd

/-- Python `sector.replace('_', ' ')` (the pattern is the single character
`'_'`, so substring replacement is character-wise replacement). -/
def underscoreToSpace (s : String) : String :=
  ⟨s.data.map (fun ch => if ch = '_' then ' ' else ch)⟩

/-- Python `sector.split('_')[0]`: the prefix before the first underscore
(the whole string when it has none). -/
def firstToken (s : String) : String :=
  ⟨s.data.takeWhile (fun ch => ch ≠ '_')⟩

/-- Python `s.startswith(pre)`. -/
def strStartsWith (s pre : String) : Bool :=
  pre.data.isPrefixOf s.data

/-- The sector-to-registry resolution chain of analysis_core.py lines 142-152:
(a) exact `sector_map` lookup; (b) the sector with underscores replaced by
spaces, if that is a registry key; (c) the first registry key (in insertion
order) that starts with the sector's first underscore-delimited token. -/
def resolveSectorKey (sector : String) : Option String :=
  match sectorMapGet sector with
  | some k => some k
  | none =>
    let secClean := underscoreToSpace sector
    if secClean ∈ Vkeys then some secClean
    else Vkeys.find? (fun k => strStartsWith k (firstToken sector))

/-- `units.loc[dt:, tk] += x`: add `x` to ticker `tk` on every day `≥ d`. -/
def addFrom (u : Units) (tk : String) (d : Nat) (x : ℚ) : Units :=
  fun c i => if c = tk ∧ d ≤ i then u c i + x else u c i

/-- The "Sell ETF" leg (analysis_core.py lines 169-171): subtract
`usd / etf_price` from the fund ticker from the resolved day forward, skipped
(with only a warning in smic.py) when the fund price is missing or ≤ 0. -/
def sellLeg (px : PriceTable) (u : Units) (t : Txn) (usd : ℚ) (etf : String) : Units :=
  match px.price etf t.day with
  | some fp => if 0 < fp then addFrom u etf t.day (-(usd / fp)) else u
  | none => u

/-- The "Buy stock" leg plus the fund sale (analysis_core.py lines 159-171):
explicit shares are added as given; otherwise units are `usd / stock_price`,
and a missing or non-positive stock price skips the whole transaction
(`continue`), fund leg included. -/
def stockLeg (px : PriceTable) (u : Units) (t : Txn) (usd : ℚ) (etf : String) : Units :=
  if 0 < t.shares then sellLeg px (addFrom u t.ticker t.day t.shares) t usd etf
  else
    match px.price t.ticker t.day with
    | some sp =>
        if 0 < sp then sellLeg px (addFrom u t.ticker t.day (usd / sp)) t usd etf
        else u
    | none => u

/-- One iteration of the transaction loop (analysis_core.py lines 111-171).
Skips: cash rows, missing/non-positive amounts, tickers absent from the price
table.  Case A (line 134): the ticker is itself a registry fund ticker or the
sector is "Fixed_Income" — the source divides `usd` by the ticker's price with
NO validity check; a `none` (NaN) price is the one spot where float poisoning
escapes the rational embedding, so that branch is modelled as leaving `u`
unchanged, and every theorem that touches it carries a present-price
hypothesis (the counterexample for claim C3 uses a present negative price, on
which this definition and the source agree exactly).  Case B (lines 141-171):
resolve the sector, check the fund ticker is a price-table column, then run
the buy/sell legs. -/
def applyTxn (px : PriceTable) (u : Units) (t : Txn) : Units :=
  if t.sector = "Cash" ∨ t.ticker = "CASH" then u
  else
    match t.amount with
    | none => u
    | some usd =>
      if usd ≤ 0 then u
      else if t.ticker ∉ px.cols then u
      else if t.ticker ∈ Vvalues ∨ t.sector = "Fixed_Income" then
        if 0 < t.shares then addFrom u t.ticker t.day t.shares
        else
          match px.price t.ticker t.day with
          | some p => addFrom u t.ticker t.day (usd / p)
          | none => u
      else
        match resolveSectorKey t.sector with
        | none => u
        | some key =>
          if key ∈ Vkeys then
            match Vget key with
            | some etf => if etf ∈ px.cols then stockLeg px u t usd etf else u
            | none => u
          else u

/-- The full units matrix: fold the transaction loop over the ledger from the
all-zero matrix (lines 107-173).  The source first sorts by `invest_date`,
but every update is an unconditional `+=` of a quantity depending only on the
price table and the row itself, so the fold is order-independent; ledgers in
the theorems below are already in date order.  The closing
`units.ffill().fillna(0)` (line 173) is the identity here: the matrix starts
dense at 0.0 and rational updates never introduce NaN. -/
def computeUnits (px : PriceTable) (ledger : List Txn) : Units :=
  ledger.foldl (applyTxn px) (fun _ _ => 0)

/-- The static cash balance (line 176): sum of `amount_invested` over rows
with sector "Cash" (pandas `.sum()` skips NaN amounts). -/
def cashVal (ledger : List Txn) : ℚ :=
  ((ledger.filter (fun tx => tx.sector == "Cash")).map (fun tx => tx.amount.getD 0)).sum

/-- One cell of `units * px`: a NaN price contributes 0, matching the
NaN-skipping pandas row sum of line 177. -/
def cellValue (px : PriceTable) (u : Units) (c : String) (d : Nat) : ℚ :=
  match px.price c d with
  | some p => u c d * p
  | none => 0

/-- `invested_value = (units * px).sum(axis=1)` (line 177). -/
def investedValue (px : PriceTable) (u : Units) (d : Nat) : ℚ :=
  (px.cols.map (fun c => cellValue px u c d)).sum

/-- `portfolio_value = invested_value + cash_val` (line 178). -/
def portfolioValue (px : PriceTable) (ledger : List Txn) (d : Nat) : ℚ :=
  investedValue px (computeUnits px ledger) d + cashVal ledger

/-- `benchmark_value = px['^GSPC'] / px['^GSPC'].iloc[0] * initial_value`
(lines 188-189); a NaN benchmark price makes the float value NaN, modelled
as 0 (no claim depends on that corner). -/
def benchmarkValue (px : PriceTable) (ledger : List Txn) (d : Nat) : ℚ :=
  match px.price "^GSPC" d, px.price "^GSPC" 0 with
  | some p, some p0 => p / p0 * portfolioValue px ledger 0
  | _, _ => 0

/-- NaN-propagating addition of series cells (pandas `+` on floats). -/
def optAdd : Option ℚ → Option ℚ → Option ℚ
  | some a, some b => some (a + b)
  | _, _ => none

/-- `units[c] * px[c]` at one day, `none` when the price cell is NaN. -/
def mulPrice (px : PriceTable) (u : Units) (c : String) (d : Nat) : Option ℚ :=
  (px.price c d).map (fun p => u c d * p)

/-- `df[df['sector'] == s]['ticker'].tolist()` (lines 198, 206): ledger order,
duplicates preserved. -/
def sectorTickers (ledger : List Txn) (s : String) : List String :=
  (ledger.filter (fun tx => tx.sector == s)).map (fun tx => tx.ticker)

/-- `sector_value` for one canonical sector (lines 199-202): the fund ticker's
market value (indexed without a column guard — the source always downloads
every registry fund ticker, so an absent column, which would raise a pandas
KeyError, is modelled as an all-NaN column via `price = none`) plus
`units[t] * px[t]` for every ledger-tagged ticker that is a column and differs
from the fund ticker.  NaN cells propagate, to be zeroed by `.fillna(0)`. -/
def sectorValue (px : PriceTable) (u : Units) (ledger : List Txn) (s etf : String)
    (d : Nat) : Option ℚ :=
  ((sectorTickers ledger s).filter (fun tk => decide (tk ∈ px.cols ∧ tk ≠ etf))).foldl
    (fun acc tk => optAdd acc (mulPrice px u tk d))
    (mulPrice px u etf d)

/-- `fi_value` (lines 206-210): starts at the 0.0 series, adds every column
tagged "Fixed_Income". -/
def fiValue (px : PriceTable) (u : Units) (ledger : List Txn) (d : Nat) : Option ℚ :=
  ((sectorTickers ledger "Fixed_Income").filter (fun tk => decide (tk ∈ px.cols))).foldl
    (fun acc tk => optAdd acc (mulPrice px u tk d))
    (some 0)

/-- One cell of the pre-normalization weight table (lines 193-216): category
market value ÷ portfolio value × 100, with NaN filled to 0 and ±inf replaced
by 0 (in ℚ, division by a zero portfolio value already yields 0). -/
def weightsPre (px : PriceTable) (ledger : List Txn) (c : String) (d : Nat) : ℚ :=
  if c ∈ Vkeys then
    match Vget c with
    | some etf =>
      match sectorValue px (computeUnits px ledger) ledger c etf d with
      | some sv => sv / portfolioValue px ledger d * 100
      | none => 0
    | none => 0
  else if c = "Fixed Income" then
    match fiValue px (computeUnits px ledger) ledger d with
    | some fv => fv / portfolioValue px ledger d * 100
    | none => 0
  else if c = "Cash" then cashVal ledger / portfolioValue px ledger d * 100
  else 0

/-- The weight table's columns: the eleven canonical sectors plus
"Fixed Income" plus "Cash" (lines 195-214; the final-weight column reorder of
lines 219-224 permutes columns only and is irrelevant to every row sum). -/
def categories : List String := Vkeys ++ ["Fixed Income", "Cash"]

/-- `weights.sum(axis=1)` before normalization. -/
def rowSumPre (px : PriceTable) (ledger : List Txn) (d : Nat) : ℚ :=
  (categories.map (fun c => weightsPre px ledger c d)).sum

/-- The conditional renormalization (lines 226-229): if the final day's row
sum deviates from 100 by more than 1, divide every row by its own row sum and
multiply by 100; otherwise leave the table unchanged.  A zero row sum under
the trigger gives NaN/inf cells in pandas with no later cleanup; in ℚ the
division yields 0 — on either side of the embedding such a row does not sum
to 100 afterwards. -/
def weightsPost (px : PriceTable) (ledger : List Txn) (c : String) (d : Nat) : ℚ :=
  if 1 < |rowSumPre px ledger (px.numDays - 1) - 100| then
    weightsPre px ledger c d / rowSumPre px ledger d * 100
  else weightsPre px ledger c d

/-- Row sums after the conditional renormalization. -/
def rowSumPost (px : PriceTable) (ledger : List Txn) (d : Nat) : ℚ :=
  (categories.map (fun c => weightsPost px ledger c d)).sum

/-- `(index[-1] - index[0]).days` (line 237). -/
def elapsedDays (px : PriceTable) : Int :=
  px.dates (px.numDays - 1) - px.dates 0

/-- `years = days / 365.25` (line 238); 365.25 = 1461/4 exactly. -/
def elapsedYears (px : PriceTable) : ℚ :=
  (elapsedDays px : ℚ) / (1461 / 4)

/-- The error message of the valuation-integrity check (line 181). -/
def pvErrMsg : String := "Portfolio value is zero or negative, cannot calculate weights"

/-- The computable part of the engine's output. -/
structure EngineOut where
  value : Nat → ℚ
  weights : String → Nat → ℚ

/-- The engine pipeline in source order: empty-ledger check (line 77-78),
empty-price-table check (line 96-97), the valuation-integrity check
`(portfolio_value <= 0).any()` (lines 180-181) before any weight is used, the
weight table, and the annualized step, which in the source hits an uncaught
`ZeroDivisionError` in `1 / years` (line 243) exactly when the elapsed time
is zero; that abort is modelled as an `Except.error`. -/
def runEngine (px : PriceTable) (ledger : List Txn) : Except String EngineOut :=
  if ledger = [] then Except.error "Transaction data file is empty"
  else if px.numDays = 0 then Except.error "No price data downloaded"
  else if (List.range px.numDays).any (fun d => decide (portfolioValue px ledger d ≤ 0)) then
    Except.error pvErrMsg
  else if elapsedYears px = 0 then Except.error "ZeroDivisionError"
  else Except.ok ⟨portfolioValue px ledger, weightsPost px ledger⟩

/-- `((final / initial) ** (1 / years) - 1) * 100` (lines 243-244), as a real
power. -/
noncomputable def cagrOf (initial final years : ℚ) : ℝ :=
  (((final : ℝ) / (initial : ℝ)) ^ ((1 : ℝ) / (years : ℝ)) - 1) * 100

/-- The annualized statistics of lines 237-244: portfolio CAGR and benchmark
CAGR, both from the same `years`; the `1 / years` of line 243 raises
`ZeroDivisionError` when `years` is zero. -/
noncomputable def annualized (px : PriceTable) (ledger : List Txn) :
    Except String (ℝ × ℝ) :=
  if elapsedYears px = 0 then Except.error "ZeroDivisionError"
  else Except.ok
    (cagrOf (portfolioValue px ledger 0) (portfolioValue px ledger (px.numDays - 1))
      (elapsedYears px),
     cagrOf (benchmarkValue px ledger 0) (benchmarkValue px ledger (px.numDays - 1))
      (elapsedYears px))

/-- Value-series indexing, `v.iloc[i]`. -/
def vAt (v : List ℚ) (i : Nat) : ℚ := v.getD i 0

/-- `v.expanding().max()` at position `i`: the maximum of `v[0..i]`. -/
def runMax (v : List ℚ) (i : Nat) : ℚ :=
  (v.take (i + 1)).foldl max (vAt v 0)

/-- One term of `(v / v.expanding().max()) - 1` (line 257). -/
def ddTerm (v : List ℚ) (i : Nat) : ℚ := vAt v i / runMax v i - 1

/-- `max_drawdown = ((v / v.expanding().max()) - 1).min() * 100` (line 257);
the fold's seed duplicates the day-0 term, which is harmless for `min`. -/
def maxDrawdown (v : List ℚ) : ℚ :=
  (((List.range v.length).map (ddTerm v)).foldl min (ddTerm v 0)) * 100

/-! ## Helper lemmas -/

lemma identityPairs_find? (s : String) :
    ∀ l : List String,
      (((l.map (fun k => (k, k))).find? (fun p => p.1 == s)).map Prod.snd) =
        if s ∈ l then some s else none := by
  intro l
  induction l with
  | nil => simp
  | cons a t ih =>
    by_cases h : a = s
    · subst h
      simp [List.find?]
    · simp only [List.map_cons, List.find?]
      have : ((a, a).1 == s) = false := by
        simp [h]
      rw [this, ih]
      simp [List.mem_cons, h, Ne.symm h]

lemma sectorMapGet_eq (s : String) :
    sectorMapGet s = if s ∈ Vkeys then some s else none := by
  simpa [sectorMapGet, sectorMap] using identityPairs_find? s Vkeys

lemma resolveSectorKey_of_mem {s : String} (h : s ∈ Vkeys) :
    resolveSectorKey s = some s := by
  unfold resolveSectorKey
  rw [sectorMapGet_eq, if_pos h]

lemma resolveSectorKey_mem {s k : String} (h : resolveSectorKey s = some k) :
    k ∈ Vkeys := by
  unfold resolveSectorKey at h
  rw [sectorMapGet_eq] at h
  by_cases hs : s ∈ Vkeys
  · rw [if_pos hs] at h
    cases h
    exact hs
  · rw [if_neg hs] at h
    simp only at h
    split at h
    · cases h
      assumption
    · exact List.mem_of_find?_eq_some h

lemma resolveSectorKey_none_not_mem {s : String} (h : resolveSectorKey s = none) :
    s ∉ Vkeys := by
  intro hs
  rw [resolveSectorKey_of_mem hs] at h
  cases h

lemma Vget_mem_values {k e : String} (h : Vget k = some e) : e ∈ Vvalues := by
  unfold Vget at h
  cases hf : V.find? (fun p => p.1 == k) with
  | none => rw [hf] at h; cases h
  | some p =>
    rw [hf] at h
    cases h
    exact List.mem_map_of_mem Prod.snd (List.mem_of_find?_eq_some hf)

lemma addFrom_apply (u : Units) (tk : String) (d : Nat) (x : ℚ) (c : String) (i : Nat) :
    addFrom u tk d x c i = if c = tk ∧ d ≤ i then u c i + x else u c i := rfl

lemma addFrom_self {u : Units} {tk : String} {d : Nat} {x : ℚ} {i : Nat} (h : d ≤ i) :
    addFrom u tk d x tk i = u tk i + x := by
  simp [addFrom, h]

lemma addFrom_other {u : Units} {tk : String} {d : Nat} {x : ℚ} {c : String} {i : Nat}
    (h : c ≠ tk) : addFrom u tk d x c i = u c i := by
  simp [addFrom, h]

/-! ## C1: swap conservation -/

/-- C1: for an individual-stock transaction of amount `X` resolved to trading
day `t.day`, whose sector resolves to a registry fund ticker `etf` present in
the price table, with both the stock price `sp` and the fund price `fp` at
that day present and positive, and no explicit share count: the engine adds
`X / sp` units to the stock ticker and subtracts `X / fp` units from the fund
ticker on every day `≥ t.day`, so the stock position's market value at the
resolved day increases by exactly `X` and the fund position's market value
decreases by exactly `X`. -/
theorem swap_conservation (px : PriceTable) (u : Units) (t : Txn) (X sp fp : ℚ)
    (key etf : String)
    (hc : ¬ (t.sector = "Cash" ∨ t.ticker = "CASH"))
    (ham : t.amount = some X) (hX : 0 < X)
    (htk : t.ticker ∈ px.cols)
    (hnotA : ¬ (t.ticker ∈ Vvalues ∨ t.sector = "Fixed_Income"))
    (hres : resolveSectorKey t.sector = some key)
    (hetf : Vget key = some etf)
    (hetfcol : etf ∈ px.cols)
    (hsh : t.shares = 0)
    (hsp : px.price t.ticker t.day = some sp) (hsppos : 0 < sp)
    (hfp : px.price etf t.day = some fp) (hfppos : 0 < fp) :
    (∀ d, t.day ≤ d →
      applyTxn px u t t.ticker d = u t.ticker d + X / sp ∧
      applyTxn px u t etf d = u etf d - X / fp) ∧
    (applyTxn px u t t.ticker t.day - u t.ticker t.day) * sp = X ∧
    (u etf t.day - applyTxn px u t etf t.day) * fp = X := by
  have hkey : key ∈ Vkeys := resolveSectorKey_mem hres
  have hne : t.ticker ≠ etf := fun h => hnotA (Or.inl (h ▸ Vget_mem_values hetf))
  have happ : applyTxn px u t =
      addFrom (addFrom u t.ticker t.day (X / sp)) etf t.day (-(X / fp)) := by
    unfold applyTxn stockLeg sellLeg
    rw [if_neg hc, ham]
    simp only
    rw [if_neg (not_le.mpr hX), if_neg (not_not_intro htk), if_neg hnotA, hres]
    simp only
    rw [if_pos hkey, hetf]
    simp only
    rw [if_pos hetfcol, hsh, if_neg (lt_irrefl (0 : ℚ)), hsp]
    simp only
    rw [if_pos hsppos, hfp]
    simp only
    rw [if_pos hfppos]
  have hmain : ∀ d, t.day ≤ d →
      applyTxn px u t t.ticker d = u t.ticker d + X / sp ∧
      applyTxn px u t etf d = u etf d - X / fp := by
    intro d hd
    rw [happ]
    constructor
    · rw [addFrom_other hne, addFrom_self hd]
    · rw [addFrom_self hd, addFrom_other (Ne.symm hne), sub_eq_add_neg]
  refine ⟨hmain, ?_, ?_⟩
  · rw [(hmain t.day le_rfl).1]
    field_simp
    ring
  · rw [(hmain t.day le_rfl).2]
    field_simp

/-- A three-column one-day price table used by witnesses: VGT at 100, AAPL at
50, the benchmark at 1. -/
def w1px : PriceTable :=
  ⟨["VGT", "AAPL", "^GSPC"], 1, fun i => (i : Int),
   fun c _ => if c = "VGT" then some 100 else if c = "AAPL" then some 50
     else if c = "^GSPC" then some 1 else none⟩

/-- A $100 AAPL purchase in sector Technology on day 0. -/
def w1t : Txn := ⟨"Technology", "AAPL", 0, some 100, 0⟩

/-- The all-zero units matrix. -/
def w1u : Units := fun _ _ => 0

/-- Witness for C1: buying $100 of AAPL at price 50 funded from VGT raises the
AAPL market value by exactly $100. -/
theorem swap_conservation_witness :
    (applyTxn w1px w1u w1t "AAPL" 0 - w1u "AAPL" 0) * 50 = 100 :=
  (swap_conservation w1px w1u w1t 100 50 100 "Technology" "VGT"
    (by decide) rfl (by norm_num) (by decide) (by decide) (by decide) (by decide)
    (by decide) rfl (by decide) (by norm_num) (by decide) (by norm_num)).2.1

/-! ## C8: units change only at transaction-resolved dates -/

lemma sellLeg_shape (px : PriceTable) (u : Units) (t : Txn) (usd : ℚ) (etf : String) :
    sellLeg px u t usd etf = u ∨ ∃ x, sellLeg px u t usd etf = addFrom u etf t.day x := by
  unfold sellLeg
  split
  · split
    · exact Or.inr ⟨_, rfl⟩
    · exact Or.inl rfl
  · exact Or.inl rfl

lemma stockLeg_shape (px : PriceTable) (u : Units) (t : Txn) (usd : ℚ) (etf : String) :
    stockLeg px u t usd etf = u ∨
    (∃ c x, stockLeg px u t usd etf = addFrom u c t.day x) ∨
    (∃ c x y, stockLeg px u t usd etf = addFrom (addFrom u c t.day x) etf t.day y) := by
  unfold stockLeg
  split
  · rcases sellLeg_shape px (addFrom u t.ticker t.day t.shares) t usd etf with h | ⟨x, h⟩
    · exact Or.inr (Or.inl ⟨_, _, h⟩)
    · exact Or.inr (Or.inr ⟨_, _, _, h⟩)
  · split
    · split
      · rcases sellLeg_shape px (addFrom u t.ticker t.day (usd / _)) t usd etf with h | ⟨x, h⟩
        · exact Or.inr (Or.inl ⟨_, _, h⟩)
        · exact Or.inr (Or.inr ⟨_, _, _, h⟩)
      · exact Or.inl rfl
    · exact Or.inl rfl

/-- Every transaction either leaves the units matrix unchanged or adds one or
two step updates, all effective from its own resolved day. -/
lemma applyTxn_shape (px : PriceTable) (u : Units) (t : Txn) :
    applyTxn px u t = u ∨
    (∃ c x, applyTxn px u t = addFrom u c t.day x) ∨
    (∃ c x c' y, applyTxn px u t = addFrom (addFrom u c t.day x) c' t.day y) := by
  rw [applyTxn.eq_def]
  split
  · exact Or.inl rfl
  split
  · exact Or.inl rfl
  split
  · exact Or.inl rfl
  split
  · exact Or.inl rfl
  split
  · split
    · exact Or.inr (Or.inl ⟨_, _, rfl⟩)
    · split
      · exact Or.inr (Or.inl ⟨_, _, rfl⟩)
      · exact Or.inl rfl
  · split
    · exact Or.inl rfl
    · split
      · split
        · split
          · rcases stockLeg_shape px u t _ _ with h | ⟨c, x, h⟩ | ⟨c, x, y, h⟩
            · exact Or.inl h
            · exact Or.inr (Or.inl ⟨_, _, h⟩)
            · exact Or.inr (Or.inr ⟨_, _, _, _, h⟩)
          · exact Or.inl rfl
        · exact Or.inl rfl
      · exact Or.inl rfl

lemma addFrom_eq_on {u : Units} {c0 : String} {d0 : Nat} {x : ℚ} {d1 d2 : Nat}
    (h12 : d1 ≤ d2) (hd : d0 ≤ d1 ∨ d2 < d0) (c : String) (hu : u c d1 = u c d2) :
    addFrom u c0 d0 x c d1 = addFrom u c0 d0 x c d2 := by
  unfold addFrom
  rcases hd with h | h
  · by_cases hc : c = c0
    · rw [if_pos ⟨hc, h⟩, if_pos ⟨hc, h.trans h12⟩, hu]
    · rw [if_neg (fun hp => hc hp.1), if_neg (fun hp => hc hp.1), hu]
  · rw [if_neg (fun hp => by omega), if_neg (fun hp => by omega), hu]

lemma applyTxn_eq_on (px : PriceTable) (t : Txn) {d1 d2 : Nat} (h12 : d1 ≤ d2)
    (hd : t.day ≤ d1 ∨ d2 < t.day) (u : Units) (hu : ∀ c, u c d1 = u c d2) :
    ∀ c, applyTxn px u t c d1 = applyTxn px u t c d2 := by
  intro c
  rcases applyTxn_shape px u t with h | ⟨a, x, h⟩ | ⟨a, x, b, y, h⟩ <;> rw [h]
  · exact hu c
  · exact addFrom_eq_on h12 hd c (hu c)
  · exact addFrom_eq_on h12 hd c (addFrom_eq_on h12 hd c (hu c))

/-- C8: for any ticker and any trading days `d1 < d2`, if no transaction of
the ledger resolves to a day in the interval `(d1, d2]`, the final units
matrix holds identical unit counts for that ticker on `d1` and `d2`: units
change only at transaction-resolved dates. -/
theorem units_step_invariant (px : PriceTable) (ledger : List Txn) (tk : String)
    (d1 d2 : Nat) (h12 : d1 < d2)
    (hled : ∀ t ∈ ledger, ¬ (d1 < t.day ∧ t.day ≤ d2)) :
    computeUnits px ledger tk d1 = computeUnits px ledger tk d2 := by
  suffices h : ∀ (l : List Txn) (u : Units), (∀ t ∈ l, ¬ (d1 < t.day ∧ t.day ≤ d2)) →
      (∀ c, u c d1 = u c d2) →
      ∀ c, l.foldl (applyTxn px) u c d1 = l.foldl (applyTxn px) u c d2 by
    unfold computeUnits
    exact h ledger (fun _ _ => 0) hled (fun c => rfl) tk
  intro l
  induction l with
  | nil => intro u _ hu c; exact hu c
  | cons t rest ih =>
    intro u hl hu c
    simp only [List.foldl_cons]
    refine ih (applyTxn px u t) (fun s hs => hl s (List.mem_cons_of_mem _ hs)) ?_ c
    refine applyTxn_eq_on px t h12.le ?_ u hu
    have := hl t (List.mem_cons_self _ _)
    omega

/-- Witness for C8: with the single day-0 AAPL transaction, AAPL's units on
day 0 and day 5 agree. -/
theorem units_step_invariant_witness :
    computeUnits w1px [w1t] "AAPL" 0 = computeUnits w1px [w1t] "AAPL" 5 :=
  units_step_invariant w1px [w1t] "AAPL" 0 5 (by norm_num) (by decide)

/-! ## C6: drawdown bound -/


lemma le_foldl_max (l : List ℚ) (a : ℚ) : a ≤ l.foldl max a := by
  induction l generalizing a with
  | nil => simp
  | cons x t ih => exact le_trans (le_max_left a x) (ih (max a x))

lemma mem_le_foldl_max {x : ℚ} (l : List ℚ) (a : ℚ) (h : x ∈ l) : x ≤ l.foldl max a := by
  induction l generalizing a with
  | nil => cases h
  | cons y t ih =>
    rcases List.mem_cons.mp h with rfl | h
    · exact le_trans (le_max_right a x) (le_foldl_max t (max a x))
    · exact ih (max a y) h

lemma foldl_min_le (l : List ℚ) (a : ℚ) : l.foldl min a ≤ a := by
  induction l generalizing a with
  | nil => simp
  | cons x t ih => exact le_trans (ih (min a x)) (min_le_left a x)

lemma foldl_min_le_mem {x : ℚ} (l : List ℚ) (a : ℚ) (h : x ∈ l) : l.foldl min a ≤ x := by
  induction l generalizing a with
  | nil => cases h
  | cons y t ih =>
    rcases List.mem_cons.mp h with rfl | h
    · exact le_trans (foldl_min_le t (min a x)) (min_le_right a x)
    · exact ih (min a y) h

lemma le_foldl_min {c : ℚ} (l : List ℚ) (a : ℚ) (hc : c ≤ a) (h : ∀ x ∈ l, c ≤ x) :
    c ≤ l.foldl min a := by
  induction l generalizing a with
  | nil => simpa using hc
  | cons y t ih =>
    exact ih (min a y) (le_min hc (h y (List.mem_cons_self _ _)))
      (fun x hx => h x (List.mem_cons_of_mem _ hx))

lemma vAt_eq_getElem (v : List ℚ) (i : Nat) (h : i < v.length) : vAt v i = v[i] := by
  simp [vAt, List.getD_eq_getElem?_getD, List.getElem?_eq_getElem h]

lemma runMax_zero (v : List ℚ) (hne : v ≠ []) : runMax v 0 = vAt v 0 := by
  cases v with
  | nil => cases hne rfl
  | cons a t => simp [runMax, vAt, List.take_succ]

lemma runMax_succ (v : List ℚ) (i : Nat) (h : i + 1 < v.length) :
    runMax v (i + 1) = max (runMax v i) (vAt v (i + 1)) := by
  unfold runMax
  rw [List.take_succ, List.getElem?_eq_getElem h, List.foldl_append]
  simp [vAt_eq_getElem v (i+1) h]

lemma vAt_le_runMax (v : List ℚ) (i : Nat) (h : i < v.length) : vAt v i ≤ runMax v i := by
  cases i with
  | zero =>
    rw [runMax_zero v (List.length_pos.mp (by omega))]
  | succ n =>
    rw [runMax_succ v n h]
    exact le_max_right _ _

lemma runMax_mono (v : List ℚ) {i j : Nat} (hij : i ≤ j) (hj : j < v.length) :
    runMax v i ≤ runMax v j := by
  induction j, hij using Nat.le_induction with
  | base => exact le_rfl
  | succ j hij ih =>
    rw [runMax_succ v j hj]
    exact le_trans (ih (by omega)) (le_max_left _ _)

lemma runMax_pos (v : List ℚ) (i : Nat) (h : i < v.length) (hpos : ∀ x ∈ v, 0 < x) :
    0 < runMax v i := by
  have h0 : 0 < v.length := by omega
  have hv0 : 0 < vAt v 0 := by
    rw [vAt_eq_getElem v 0 h0]
    exact hpos _ (v.getElem_mem h0)
  calc (0:ℚ) < vAt v 0 := hv0
    _ ≤ runMax v 0 := vAt_le_runMax v 0 h0
    _ ≤ runMax v i := runMax_mono v (Nat.zero_le i) h



lemma ddTerm_zero_eq (v : List ℚ) (hne : v ≠ []) (h0 : 0 < vAt v 0) : ddTerm v 0 = 0 := by
  rw [ddTerm, runMax_zero v hne, div_self (ne_of_gt h0)]
  ring

lemma ddTerm_nonpos (v : List ℚ) (i : Nat) (h : i < v.length) (hpos : ∀ x ∈ v, 0 < x) :
    ddTerm v i ≤ 0 := by
  rw [ddTerm, sub_nonpos]
  exact (div_le_one (runMax_pos v i h hpos)).mpr (vAt_le_runMax v i h)

lemma runMax_eq_vAt_of_mono (v : List ℚ)
    (hm : ∀ i j, i ≤ j → j < v.length → vAt v i ≤ vAt v j) :
    ∀ i, i < v.length → runMax v i = vAt v i := by
  intro i
  induction i with
  | zero => intro h; exact runMax_zero v (List.length_pos.mp (by omega))
  | succ n ih =>
    intro h
    rw [runMax_succ v n h, ih (by omega), max_eq_right (hm n (n+1) (by omega) h)]

/-- C6: for the value series the engine reaches (non-empty and, by the
valuation-integrity check that precedes line 257, strictly positive), the max
drawdown `min over days of (value / running-max-to-date - 1) * 100` is always
`≤ 0`, equals 0 exactly when the series is non-decreasing throughout, and the
day-0 drawdown term is always 0. -/
theorem max_drawdown_props (v : List ℚ) (hne : v ≠ []) (hpos : ∀ x ∈ v, 0 < x) :
    maxDrawdown v ≤ 0 ∧
    (maxDrawdown v = 0 ↔ ∀ i j, i ≤ j → j < v.length → vAt v i ≤ vAt v j) ∧
    ddTerm v 0 = 0 := by
  have hlen : 0 < v.length := List.length_pos.mpr hne
  have h00 : 0 < vAt v 0 := by
    rw [vAt_eq_getElem v 0 hlen]
    exact hpos _ (v.getElem_mem hlen)
  have hdd0 : ddTerm v 0 = 0 := ddTerm_zero_eq v hne h00
  have hterm_mem : ∀ i, i < v.length → ddTerm v i ∈ (List.range v.length).map (ddTerm v) := by
    intro i hi
    exact List.mem_map_of_mem _ (List.mem_range.mpr hi)
  have hfold_le : ((List.range v.length).map (ddTerm v)).foldl min (ddTerm v 0) ≤ 0 := by
    calc ((List.range v.length).map (ddTerm v)).foldl min (ddTerm v 0)
        ≤ ddTerm v 0 := foldl_min_le _ _
      _ = 0 := hdd0
  refine ⟨?_, ⟨?_, ?_⟩, hdd0⟩
  · unfold maxDrawdown
    nlinarith [hfold_le]
  · -- maxDrawdown = 0 → monotone
    intro hmdd
    have hfold : ((List.range v.length).map (ddTerm v)).foldl min (ddTerm v 0) = 0 := by
      unfold maxDrawdown at hmdd
      rcases mul_eq_zero.mp hmdd with h | h
      · exact h
      · norm_num at h
    have hterm0 : ∀ i, i < v.length → ddTerm v i = 0 := by
      intro i hi
      have h1 : ddTerm v i ≤ 0 := ddTerm_nonpos v i hi hpos
      have h2 : (0:ℚ) ≤ ddTerm v i := by
        rw [← hfold]
        exact foldl_min_le_mem _ _ (hterm_mem i hi)
      linarith
    have heq : ∀ i, i < v.length → vAt v i = runMax v i := by
      intro i hi
      have := hterm0 i hi
      rw [ddTerm, sub_eq_zero] at this
      have hrm : runMax v i ≠ 0 := ne_of_gt (runMax_pos v i hi hpos)
      field_simp at this
      exact this
    intro i j hij hj
    calc vAt v i = runMax v i := heq i (by omega)
      _ ≤ runMax v j := runMax_mono v hij hj
      _ = vAt v j := (heq j hj).symm
  · -- monotone → maxDrawdown = 0
    intro hm
    have hterm0 : ∀ i, i < v.length → ddTerm v i = 0 := by
      intro i hi
      have hpos_i : 0 < vAt v i := by
        rw [vAt_eq_getElem v i hi]
        exact hpos _ (v.getElem_mem hi)
      rw [ddTerm, runMax_eq_vAt_of_mono v hm i hi, div_self (ne_of_gt hpos_i)]
      ring
    have h1 : ((List.range v.length).map (ddTerm v)).foldl min (ddTerm v 0) ≤ 0 := hfold_le
    have h2 : (0:ℚ) ≤ ((List.range v.length).map (ddTerm v)).foldl min (ddTerm v 0) := by
      refine le_foldl_min _ _ (le_of_eq hdd0.symm) ?_
      intro x hx
      rcases List.mem_map.mp hx with ⟨i, hi, rfl⟩
      exact le_of_eq (hterm0 i (List.mem_range.mp hi)).symm
    unfold maxDrawdown
    have : ((List.range v.length).map (ddTerm v)).foldl min (ddTerm v 0) = 0 := le_antisymm h1 h2
    rw [this]
    ring

/-- Witness for C6: the increasing two-day series 1, 2 has drawdown ≤ 0. -/
theorem max_drawdown_props_witness : maxDrawdown [1, 2] ≤ 0 :=
  (max_drawdown_props [1, 2] (by decide) (by norm_num)).1



/-! ## C2: valuation integrity check -/

/-- C2: for a non-empty ledger and non-empty price table, the engine raises
the fatal "Portfolio value is zero or negative" error exactly when some
trading day in range has portfolio value ≤ 0 (the check of lines 180-181 runs
before any weight is computed), and whenever the engine returns successfully
every day's portfolio value is strictly positive. -/
theorem value_positivity (px : PriceTable) (ledger : List Txn)
    (hl : ledger ≠ []) (hn : 0 < px.numDays) :
    (runEngine px ledger = Except.error pvErrMsg ↔
      ∃ d, d < px.numDays ∧ portfolioValue px ledger d ≤ 0) ∧
    (∀ out, runEngine px ledger = Except.ok out →
      ∀ d, d < px.numDays → 0 < portfolioValue px ledger d) := by
  have hany : ((List.range px.numDays).any
      (fun d => decide (portfolioValue px ledger d ≤ 0)) = true) ↔
      ∃ d, d < px.numDays ∧ portfolioValue px ledger d ≤ 0 := by
    rw [List.any_eq_true]
    constructor
    · rintro ⟨d, hd, hle⟩
      exact ⟨d, List.mem_range.mp hd, of_decide_eq_true hle⟩
    · rintro ⟨d, hd, hle⟩
      exact ⟨d, List.mem_range.mpr hd, decide_eq_true hle⟩
  unfold runEngine
  rw [if_neg hl, if_neg (Nat.pos_iff_ne_zero.mp hn)]
  constructor
  · by_cases hc : (List.range px.numDays).any
        (fun d => decide (portfolioValue px ledger d ≤ 0)) = true
    · rw [if_pos hc]
      exact ⟨fun _ => hany.mp hc, fun _ => rfl⟩
    · rw [if_neg hc]
      constructor
      · intro h
        split at h
        · exact absurd (Except.error.inj h) (by decide)
        · cases h
      · intro hex
        exact absurd (hany.mpr hex) hc
  · intro out hout
    by_cases hc : (List.range px.numDays).any
        (fun d => decide (portfolioValue px ledger d ≤ 0)) = true
    · rw [if_pos hc] at hout
      cases hout
    · intro d hd
      by_contra hneg
      exact hc (hany.mpr ⟨d, hd, not_lt.mp hneg⟩)

/-- A two-day, two-column price table with constant prices. -/
def w2px : PriceTable :=
  ⟨["VGT", "^GSPC"], 2, fun i => (i : Int),
   fun c _ => if c = "VGT" then some 100 else if c = "^GSPC" then some 1 else none⟩

/-- A single $1000 VGT purchase on day 0. -/
def w2ledger : List Txn := [⟨"Technology", "VGT", 0, some 1000, 0⟩]

lemma w2_pv (d : Nat) : portfolioValue w2px w2ledger d = 1000 := by
  simp +decide [portfolioValue, investedValue, cellValue, cashVal, computeUnits, applyTxn,
    addFrom, w2px, w2ledger, Vvalues, V, Nat.zero_le]

lemma w2_run : runEngine w2px w2ledger =
    Except.ok ⟨portfolioValue w2px w2ledger, weightsPost w2px w2ledger⟩ := by
  unfold runEngine
  rw [if_neg (by decide), if_neg (by decide), if_neg ?_, if_neg ?_]
  · intro h
    rw [show elapsedYears w2px = 4/1461 by norm_num [elapsedYears, elapsedDays, w2px]] at h
    norm_num at h
  · intro h
    rw [show (List.range w2px.numDays) = [0, 1] from rfl] at h
    simp [w2_pv] at h
    exact absurd h (by norm_num)

/-- Witness for C2: on the concrete two-day run the engine succeeds, so
day 0's portfolio value is positive. -/
theorem value_positivity_witness : 0 < portfolioValue w2px w2ledger 0 :=
  (value_positivity w2px w2ledger (by decide) (by decide)).2
    ⟨portfolioValue w2px w2ledger, weightsPost w2px w2ledger⟩ w2_run 0 (by decide)



/-! ## C9: degenerate time range and the CAGR formula -/

/-- C9: with strictly increasing trading-day dates, the annualized step fails
(the source's uncaught `ZeroDivisionError` in `1 / years`, line 243) exactly
when the elapsed years are ≤ 0; for positive elapsed years it produces
`((final/initial) ^ (1/years) - 1) * 100` for the portfolio and, with the
same formula and the same `years`, for the benchmark. -/
theorem cagr_degenerate_range (px : PriceTable) (ledger : List Txn)
    (hmono : ∀ j, j < px.numDays → ∀ i, i < j → px.dates i < px.dates j)
    (hn : 0 < px.numDays) :
    ((∃ e, annualized px ledger = Except.error e) ↔ elapsedYears px ≤ 0) ∧
    (0 < elapsedYears px →
      annualized px ledger = Except.ok
        (cagrOf (portfolioValue px ledger 0) (portfolioValue px ledger (px.numDays - 1))
          (elapsedYears px),
         cagrOf (benchmarkValue px ledger 0) (benchmarkValue px ledger (px.numDays - 1))
          (elapsedYears px))) := by
  have hyd : 0 ≤ elapsedDays px := by
    unfold elapsedDays
    rcases Nat.eq_zero_or_pos (px.numDays - 1) with h | h
    · rw [h]
      omega
    · have := hmono (px.numDays - 1) (by omega) 0 h
      omega
  have hy : 0 ≤ elapsedYears px := by
    unfold elapsedYears
    positivity
  constructor
  · constructor
    · rintro ⟨e, he⟩
      unfold annualized at he
      split at he
      · exact le_of_eq (by assumption)
      · cases he
    · intro hle
      have hz : elapsedYears px = 0 := le_antisymm hle hy
      exact ⟨"ZeroDivisionError", by unfold annualized; rw [if_pos hz]⟩
  · intro hpos
    unfold annualized
    rw [if_neg (ne_of_gt hpos)]

/-- Witness for C9: the two-day run spans one calendar day, a positive
elapsed time, and yields both CAGR values from the shared formula. -/
theorem cagr_degenerate_range_witness :
    annualized w2px w2ledger = Except.ok
      (cagrOf (portfolioValue w2px w2ledger 0) (portfolioValue w2px w2ledger (w2px.numDays - 1))
        (elapsedYears w2px),
       cagrOf (benchmarkValue w2px w2ledger 0) (benchmarkValue w2px w2ledger (w2px.numDays - 1))
        (elapsedYears w2px)) :=
  (cagr_degenerate_range w2px w2ledger (by decide) (by decide)).2
    (by norm_num [elapsedYears, elapsedDays, w2px])



/-! ## C4 and C5: weight row sums and the conditional renormalization -/

lemma sum_map_div_mul (l : List String) (f : String → ℚ) (S : ℚ) :
    (l.map (fun c => f c / S * 100)).sum = (l.map f).sum / S * 100 := by
  induction l with
  | nil => simp
  | cons a t ih =>
    simp only [List.map_cons, List.sum_cons, ih]
    ring

/-- C4 counterexample input: one trading day, $9950 of VGT at price 100 and a
$50 stock S at price 50 whose sector "Technology_X" resolves only via the
prefix fallback. -/
def c4px : PriceTable :=
  ⟨["VGT", "S", "^GSPC"], 1, fun i => (i : Int),
   fun c _ => if c = "VGT" then some 100 else if c = "S" then some 50
     else if c = "^GSPC" then some 1 else none⟩

/-- A $9950 VGT purchase plus the fallback-resolved $50 stock swap. -/
def c4ledger : List Txn :=
  [⟨"Technology", "VGT", 0, some 9950, 0⟩, ⟨"Technology_X", "S", 0, some 50, 0⟩]

lemma c4_pre : rowSumPre c4px c4ledger 0 = 19800/199 := by
  simp +decide [rowSumPre, weightsPre, categories, Vkeys, Vget, V, sectorValue, fiValue,
    sectorTickers, mulPrice, optAdd, portfolioValue, investedValue, cellValue, cashVal,
    computeUnits, applyTxn, addFrom, stockLeg, sellLeg, resolveSectorKey, sectorMapGet,
    sectorMap, underscoreToSpace, firstToken, strStartsWith, Vvalues, c4px, c4ledger]
  norm_num

lemma c4_notrig : ¬ (1 < |rowSumPre c4px c4ledger (c4px.numDays - 1) - 100|) := by
  rw [show c4px.numDays - 1 = 0 from rfl, c4_pre,
    show (19800/199 : ℚ) - 100 = -(100/199) by norm_num, abs_neg,
    abs_of_nonneg (by norm_num : (0:ℚ) ≤ 100/199)]
  norm_num

/-- Counterexample to C4 as stated: on this run the stock S is held (its
value is in the portfolio value) but its sector tag "Technology_X" matches no
weight column exactly, so the single (final) day's row sum is 19800/199
≈ 99.4975; the deviation 100/199 ≈ 0.5025 is below the renormalization
trigger of 1, so the weights are left unchanged and the row sum is NOT within
0.01 of 100. -/
theorem weight_rowsum_cex :
    0 < c4px.numDays ∧ ¬ (|rowSumPost c4px c4ledger 0 - 100| ≤ 1/100) := by
  refine ⟨by decide, ?_⟩
  have hpost : rowSumPost c4px c4ledger 0 = 19800/199 := by
    simp only [rowSumPost, weightsPost, if_neg c4_notrig]
    exact c4_pre
  rw [hpost, show (19800/199 : ℚ) - 100 = -(100/199) by norm_num, abs_neg,
    abs_of_nonneg (by norm_num : (0:ℚ) ≤ 100/199)]
  norm_num

/-- C4 amended: after the normalization step the FINAL day's row sum is
within 1 percentage point of 100 (exactly 100 when the rescale triggered),
provided the final pre-normalization row sum is nonzero; row sums within 0.01
of 100 on every day are not guaranteed. -/
theorem final_rowsum_within_one (px : PriceTable) (ledger : List Txn)
    (hS : rowSumPre px ledger (px.numDays - 1) ≠ 0) :
    |rowSumPost px ledger (px.numDays - 1) - 100| ≤ 1 := by
  by_cases trig : 1 < |rowSumPre px ledger (px.numDays - 1) - 100|
  · have : rowSumPost px ledger (px.numDays - 1) = 100 := by
      simp only [rowSumPost, weightsPost, if_pos trig]
      rw [sum_map_div_mul]
      rw [show (categories.map fun c => weightsPre px ledger c (px.numDays - 1)).sum =
        rowSumPre px ledger (px.numDays - 1) from rfl]
      rw [div_self hS]
      ring
    rw [this]
    norm_num
  · have : rowSumPost px ledger (px.numDays - 1) = rowSumPre px ledger (px.numDays - 1) := by
      simp only [rowSumPost, weightsPost, if_neg trig]
      rfl
    rw [this]
    exact le_of_not_lt trig
 
/-- Witness input with a large fallback leak: $9000 VGT plus a $1000
fallback-sector stock leaves the final row sum at 800/9 ≈ 88.9, which
triggers the renormalization. -/
def w4px : PriceTable :=
  ⟨["VGT", "S", "^GSPC"], 1, fun i => (i : Int),
   fun c _ => if c = "VGT" then some 100 else if c = "S" then some 100
     else if c = "^GSPC" then some 1 else none⟩

def w4ledger : List Txn :=
  [⟨"Technology", "VGT", 0, some 9000, 0⟩, ⟨"Technology_X", "S", 0, some 1000, 0⟩]

lemma w4_pre : rowSumPre w4px w4ledger 0 = 800/9 := by
  simp +decide [rowSumPre, weightsPre, categories, Vkeys, Vget, V, sectorValue, fiValue,
    sectorTickers, mulPrice, optAdd, portfolioValue, investedValue, cellValue, cashVal,
    computeUnits, applyTxn, addFrom, stockLeg, sellLeg, resolveSectorKey, sectorMapGet,
    sectorMap, underscoreToSpace, firstToken, strStartsWith, Vvalues, w4px, w4ledger]
  norm_num

/-- Witness for amended C4: on the triggering input the final row sum lands
within 1 of 100. -/
theorem final_rowsum_within_one_witness :
    |rowSumPost w4px w4ledger (w4px.numDays - 1) - 100| ≤ 1 :=
  final_rowsum_within_one w4px w4ledger
    (by rw [show w4px.numDays - 1 = 0 from rfl, w4_pre]; norm_num)



/-- C5 counterexample input: $100 cash plus a $100 fallback-resolved AAPL
swap; on day 0 the attributed weights sum to 0 while the portfolio value is
100, and VGT's halving on day 1 pushes the final row sum to 100/3. -/
def c5px : PriceTable :=
  ⟨["VGT", "AAPL", "^GSPC"], 2, fun i => (i : Int),
   fun c d => if c = "VGT" then some (if d = 0 then 100 else 50)
     else if c = "AAPL" then some 100 else if c = "^GSPC" then some 1 else none⟩

def c5ledger : List Txn :=
  [⟨"Cash", "CASH", 0, some 100, 0⟩, ⟨"Technology_X", "AAPL", 0, some 100, 0⟩]

lemma c5_pre1 : rowSumPre c5px c5ledger 1 = 100/3 := by
  simp +decide [rowSumPre, weightsPre, categories, Vkeys, Vget, V, sectorValue, fiValue,
    sectorTickers, mulPrice, optAdd, portfolioValue, investedValue, cellValue, cashVal,
    computeUnits, applyTxn, addFrom, stockLeg, sellLeg, resolveSectorKey, sectorMapGet,
    sectorMap, underscoreToSpace, firstToken, strStartsWith, Vvalues, c5px, c5ledger]
  norm_num

lemma c5_pre0 : rowSumPre c5px c5ledger 0 = 0 := by
  simp +decide [rowSumPre, weightsPre, categories, Vkeys, Vget, V, sectorValue, fiValue,
    sectorTickers, mulPrice, optAdd, portfolioValue, investedValue, cellValue, cashVal,
    computeUnits, applyTxn, addFrom, stockLeg, sellLeg, resolveSectorKey, sectorMapGet,
    sectorMap, underscoreToSpace, firstToken, strStartsWith, Vvalues, c5px, c5ledger]

lemma c5_trig : 1 < |rowSumPre c5px c5ledger (c5px.numDays - 1) - 100| := by
  rw [show c5px.numDays - 1 = 1 from rfl, c5_pre1,
    show (100/3 : ℚ) - 100 = -(200/3) by norm_num, abs_neg,
    abs_of_nonneg (by norm_num : (0:ℚ) ≤ 200/3)]
  norm_num

/-- Counterexample to C5 as stated: the final-day deviation 200/3 > 1
triggers the rescale, yet day 0's row (row sum 0, portfolio value positive)
does not sum to 100 after the division by its own row sum (in the float
source those cells become NaN/inf; in ℚ they become 0 — on neither side 100).
-/
theorem renormalization_cex :
    1 < |rowSumPre c5px c5ledger (c5px.numDays - 1) - 100| ∧
    portfolioValue c5px c5ledger 0 > 0 ∧
    rowSumPost c5px c5ledger 0 ≠ 100 := by
  refine ⟨c5_trig, ?_, ?_⟩
  · rw [show portfolioValue c5px c5ledger 0 = 100 by
      simp +decide [portfolioValue, investedValue, cellValue, cashVal, computeUnits,
        applyTxn, addFrom, stockLeg, sellLeg, resolveSectorKey, sectorMapGet, sectorMap,
        underscoreToSpace, firstToken, strStartsWith, Vvalues, Vkeys, Vget, V, c5px, c5ledger]]
    norm_num
  · have hpost : rowSumPost c5px c5ledger 0 = 0 := by
      simp only [rowSumPost, weightsPost, if_pos c5_trig]
      rw [sum_map_div_mul,
        show (categories.map fun c => weightsPre c5px c5ledger c 0).sum =
          rowSumPre c5px c5ledger 0 from rfl, c5_pre0]
      norm_num
    rw [hpost]
    norm_num

/-- C5 amended: the rescale happens iff the final day's row sum deviates
from 100 by more than 1; when triggered every cell becomes
`weight / own-row-sum * 100`, so every row with NONZERO row sum then sums to
exactly 100; when not triggered every weight (including off-100 intermediate
rows) is unchanged. -/
theorem renormalization_behavior (px : PriceTable) (ledger : List Txn) :
    (¬ 1 < |rowSumPre px ledger (px.numDays - 1) - 100| →
      ∀ c d, weightsPost px ledger c d = weightsPre px ledger c d) ∧
    (1 < |rowSumPre px ledger (px.numDays - 1) - 100| →
      (∀ c d, weightsPost px ledger c d =
        weightsPre px ledger c d / rowSumPre px ledger d * 100) ∧
      (∀ d, rowSumPre px ledger d ≠ 0 → rowSumPost px ledger d = 100)) := by
  constructor
  · intro htrig c d
    simp only [weightsPost, if_neg htrig]
  · intro htrig
    constructor
    · intro c d
      simp only [weightsPost, if_pos htrig]
    · intro d hS
      simp only [rowSumPost, weightsPost, if_pos htrig]
      rw [sum_map_div_mul,
        show (categories.map fun c => weightsPre px ledger c d).sum =
          rowSumPre px ledger d from rfl, div_self hS]
      ring

/-- Witness for amended C5: the triggered rescale makes the (nonzero)
day-0 row of the w4 input sum to exactly 100. -/
theorem renormalization_behavior_witness : rowSumPost w4px w4ledger 0 = 100 :=
  ((renormalization_behavior w4px w4ledger).2
    (by
      rw [show w4px.numDays - 1 = 0 from rfl, w4_pre,
        show (800/9 : ℚ) - 100 = -(100/9) by norm_num, abs_neg,
        abs_of_nonneg (by norm_num : (0:ℚ) ≤ 100/9)]
      norm_num)).2 0
    (by rw [w4_pre]; norm_num)



/-! ## C3: which bad-price transactions are skipped -/

/-- C3 counterexample input: a Case-A (fund-ticker) purchase whose resolved
day price is the non-positive value -50. -/
def c3px : PriceTable :=
  ⟨["VGT"], 1, fun i => (i : Int), fun c d => if c = "VGT" ∧ d = 0 then some (-50) else none⟩

def c3ledger : List Txn := [⟨"Technology", "VGT", 0, some 100, 0⟩]

/-- Counterexample to C3 as stated: the $100 VGT (Case A) purchase at the
non-positive resolved-day price -50 is NOT skipped — the source divides
unconditionally (line 138), adding 100 / -50 = -2 units, so the units matrix
differs from the run without the transaction. -/
theorem caseA_price_not_skipped_cex :
    (∃ sp, c3px.price "VGT" 0 = some sp ∧ sp ≤ 0) ∧
    computeUnits c3px c3ledger "VGT" 0 ≠ computeUnits c3px [] "VGT" 0 := by
  refine ⟨⟨-50, rfl, by norm_num⟩, ?_⟩
  rw [show computeUnits c3px c3ledger "VGT" 0 = -2 by
      simp +decide [computeUnits, applyTxn, addFrom, c3px, c3ledger, Vvalues, V]
      norm_num,
    show computeUnits c3px [] "VGT" 0 = 0 by simp [computeUnits]]
  norm_num

/-- Removing a no-op transaction from anywhere in the ledger leaves the
units matrix unchanged. -/
lemma computeUnits_middle (px : PriceTable) (l1 l2 : List Txn) (t : Txn)
    (hid : ∀ u, applyTxn px u t = u) :
    computeUnits px (l1 ++ t :: l2) = computeUnits px (l1 ++ l2) := by
  unfold computeUnits
  rw [List.foldl_append, List.foldl_cons, hid, ← List.foldl_append]

lemma cashVal_middle (l1 l2 : List Txn) (t : Txn) (h : t.sector ≠ "Cash") :
    cashVal (l1 ++ t :: l2) = cashVal (l1 ++ l2) := by
  simp [cashVal, List.filter_append, List.filter_cons, h]

/-- C3 amended: only the Case-B (individual stock) leg checks the price: an
individual-stock transaction with no explicit share count whose own ticker's
resolved-day price is missing or ≤ 0 is skipped as a complete no-op — the
units matrix and the portfolio value are identical to a run without it, and
processing continues (no fatal error).  Case-A fund/fixed-income purchases
perform no such check (see the counterexample). -/
theorem skip_invalid_stock_price (px : PriceTable) (t : Txn) (X : ℚ)
    (hc : ¬ (t.sector = "Cash" ∨ t.ticker = "CASH"))
    (ham : t.amount = some X) (hX : 0 < X)
    (htk : t.ticker ∈ px.cols)
    (hnotA : ¬ (t.ticker ∈ Vvalues ∨ t.sector = "Fixed_Income"))
    (hsh : ¬ 0 < t.shares)
    (hbad : px.price t.ticker t.day = none ∨
      ∃ sp, px.price t.ticker t.day = some sp ∧ sp ≤ 0) :
    (∀ u, applyTxn px u t = u) ∧
    (∀ l1 l2 d, portfolioValue px (l1 ++ t :: l2) d = portfolioValue px (l1 ++ l2) d) := by
  have hid : ∀ u, applyTxn px u t = u := by
    intro u
    unfold applyTxn
    rw [if_neg hc, ham]
    simp only
    rw [if_neg (not_le.mpr hX), if_neg (not_not_intro htk), if_neg hnotA]
    cases hres : resolveSectorKey t.sector with
    | none => rfl
    | some key =>
      simp only
      by_cases hkey : key ∈ Vkeys
      · rw [if_pos hkey]
        cases hv : Vget key with
        | none => rfl
        | some etf =>
          simp only
          by_cases hcol : etf ∈ px.cols
          · rw [if_pos hcol]
            unfold stockLeg
            rw [if_neg hsh]
            rcases hbad with hnone | ⟨sp, hsp, hsple⟩
            · rw [hnone]
            · rw [hsp]
              simp only
              rw [if_neg (not_lt.mpr hsple)]
          · rw [if_neg hcol]
      · rw [if_neg hkey]
  refine ⟨hid, fun l1 l2 d => ?_⟩
  unfold portfolioValue investedValue
  rw [computeUnits_middle px l1 l2 t hid, cashVal_middle l1 l2 t (fun h => hc (Or.inl h))]

/-- Witness input: stock S has price 0 on the resolved day. -/
def c3wpx : PriceTable :=
  ⟨["VGT", "S", "^GSPC"], 1, fun i => (i : Int),
   fun c _ => if c = "VGT" then some 100 else if c = "S" then some 0
     else if c = "^GSPC" then some 1 else none⟩

def c3wt : Txn := ⟨"Technology", "S", 0, some 100, 0⟩

/-- Witness for amended C3: the zero-priced stock purchase leaves the
portfolio value as without it. -/
theorem skip_invalid_stock_price_witness :
    portfolioValue c3wpx ([] ++ c3wt :: []) 0 = portfolioValue c3wpx ([] ++ []) 0 :=
  (skip_invalid_stock_price c3wpx c3wt 100 (by decide) rfl (by norm_num) (by decide)
    (by decide) (by norm_num [c3wt]) (Or.inr ⟨0, by decide, le_refl 0⟩)).2 [] [] 0



/-! ## C7: the sector resolution chain and skip behavior -/

lemma foldl_optAdd_none (f : String → Option ℚ) (l : List String) :
    l.foldl (fun acc tk => optAdd acc (f tk)) none = none := by
  induction l with
  | nil => rfl
  | cons a tl ih =>
    simp only [List.foldl_cons]
    have : optAdd none (f a) = none := by
      cases f a <;> rfl
    rw [this, ih]

lemma sectorTickers_middle (l1 l2 : List Txn) (t : Txn) (s : String)
    (h : t.sector ≠ s) :
    sectorTickers (l1 ++ t :: l2) s = sectorTickers (l1 ++ l2) s := by
  simp [sectorTickers, List.filter_append, List.filter_cons, h]

lemma portfolioValue_middle (px : PriceTable) (l1 l2 : List Txn) (t : Txn)
    (hid : ∀ u, applyTxn px u t = u) (hcash : t.sector ≠ "Cash") (d : Nat) :
    portfolioValue px (l1 ++ t :: l2) d = portfolioValue px (l1 ++ l2) d := by
  unfold portfolioValue investedValue
  rw [computeUnits_middle px l1 l2 t hid, cashVal_middle l1 l2 t hcash]

lemma resolveSectorKey_norm {s : String} (h1 : s ∉ Vkeys)
    (h2 : underscoreToSpace s ∈ Vkeys) :
    resolveSectorKey s = some (underscoreToSpace s) := by
  unfold resolveSectorKey
  rw [sectorMapGet_eq, if_neg h1]
  simp only
  rw [if_pos h2]

lemma resolveSectorKey_tok {s : String} (h1 : s ∉ Vkeys)
    (h2 : underscoreToSpace s ∉ Vkeys) :
    resolveSectorKey s = Vkeys.find? (fun k => strStartsWith k (firstToken s)) := by
  unfold resolveSectorKey
  rw [sectorMapGet_eq, if_neg h1]
  simp only
  rw [if_neg h2]

lemma weightsPre_middle (px : PriceTable) (l1 l2 : List Txn) (t : Txn)
    (hid : ∀ u, applyTxn px u t = u)
    (hcash : t.sector ≠ "Cash") (hfi : t.sector ≠ "Fixed_Income")
    (hsec : ∀ e, Vget t.sector = some e → ∀ dd, px.price e dd = none)
    (c : String) (d : Nat) :
    weightsPre px (l1 ++ t :: l2) c d = weightsPre px (l1 ++ l2) c d := by
  unfold weightsPre
  by_cases hcV : c ∈ Vkeys
  · rw [if_pos hcV, if_pos hcV]
    cases hv : Vget c with
    | none => rfl
    | some etf =>
      simp only
      by_cases hceq : t.sector = c
      · have hnone : ∀ dd, px.price etf dd = none := hsec etf (hceq ▸ hv)
        have hbase : ∀ u, mulPrice px u etf d = none := by
          intro u
          unfold mulPrice
          rw [hnone d]
          rfl
        have h1 : ∀ u ledger, sectorValue px u ledger c etf d = none := by
          intro u ledger
          unfold sectorValue
          rw [hbase u]
          exact foldl_optAdd_none _ _
        rw [h1, h1]
      · unfold sectorValue
        rw [computeUnits_middle px l1 l2 t hid, sectorTickers_middle l1 l2 t c hceq,
          portfolioValue_middle px l1 l2 t hid hcash]
  · rw [if_neg hcV, if_neg hcV]
    by_cases hcF : c = "Fixed Income"
    · rw [if_pos hcF, if_pos hcF]
      unfold fiValue
      rw [computeUnits_middle px l1 l2 t hid, sectorTickers_middle l1 l2 t _ hfi,
        portfolioValue_middle px l1 l2 t hid hcash]
    · rw [if_neg hcF, if_neg hcF]
      by_cases hcC : c = "Cash"
      · rw [if_pos hcC, if_pos hcC, cashVal_middle l1 l2 t hcash,
          portfolioValue_middle px l1 l2 t hid hcash]
      · rw [if_neg hcC, if_neg hcC]

/-- C7: for an individual-stock transaction the sector resolves through, in
order: (a) exact registry-key match (the identity `sector_map`); (b) the
underscore-to-space normalized name when that is a registry key; (c) the
first registry key starting with the sector's first underscore-delimited
token; and when no entry resolves, or the resolved fund ticker is absent from
the price table (an absent column prices as `none`, hypothesis `hout`), the
transaction is skipped: units are untouched and the total portfolio value and
every pre-normalization weight are unaffected by its amount. -/
theorem sector_resolution_chain (px : PriceTable) (t : Txn) (X : ℚ)
    (hout : ∀ c, c ∉ px.cols → ∀ d, px.price c d = none)
    (hc : ¬ (t.sector = "Cash" ∨ t.ticker = "CASH"))
    (ham : t.amount = some X) (hX : 0 < X)
    (htk : t.ticker ∈ px.cols)
    (hnotA : ¬ (t.ticker ∈ Vvalues ∨ t.sector = "Fixed_Income")) :
    (t.sector ∈ Vkeys → resolveSectorKey t.sector = some t.sector) ∧
    (t.sector ∉ Vkeys → underscoreToSpace t.sector ∈ Vkeys →
      resolveSectorKey t.sector = some (underscoreToSpace t.sector)) ∧
    (t.sector ∉ Vkeys → underscoreToSpace t.sector ∉ Vkeys →
      resolveSectorKey t.sector =
        Vkeys.find? (fun k => strStartsWith k (firstToken t.sector))) ∧
    ((resolveSectorKey t.sector = none ∨
        ∃ k e, resolveSectorKey t.sector = some k ∧ Vget k = some e ∧ e ∉ px.cols) →
      (∀ u, applyTxn px u t = u) ∧
      (∀ l1 l2 d, portfolioValue px (l1 ++ t :: l2) d = portfolioValue px (l1 ++ l2) d) ∧
      (∀ l1 l2 c d, weightsPre px (l1 ++ t :: l2) c d = weightsPre px (l1 ++ l2) c d)) := by
  refine ⟨fun h => resolveSectorKey_of_mem h,
    fun h1 h2 => resolveSectorKey_norm h1 h2,
    fun h1 h2 => resolveSectorKey_tok h1 h2, ?_⟩
  intro hfail
  have hid : ∀ u, applyTxn px u t = u := by
    intro u
    unfold applyTxn
    rw [if_neg hc, ham]
    simp only
    rw [if_neg (not_le.mpr hX), if_neg (not_not_intro htk), if_neg hnotA]
    rcases hfail with hres | ⟨k, e, hk, he, hecol⟩
    · rw [hres]
    · rw [hk]
      simp only
      rw [if_pos (resolveSectorKey_mem hk), he]
      simp only
      rw [if_neg hecol]
  have hcash : t.sector ≠ "Cash" := fun h => hc (Or.inl h)
  have hfi : t.sector ≠ "Fixed_Income" := fun h => hnotA (Or.inr h)
  refine ⟨hid, fun l1 l2 d => portfolioValue_middle px l1 l2 t hid hcash d,
    fun l1 l2 c d => ?_⟩
  refine weightsPre_middle px l1 l2 t hid hcash hfi ?_ c d
  intro e hVg dd
  rcases hfail with hres | ⟨k, e', hk, he', hecol⟩
  · -- resolution failed, so t.sector is not a registry key, but Vget some means it is
    exfalso
    have : t.sector ∈ Vkeys := by
      unfold Vget at hVg
      cases hf : V.find? (fun p => p.1 == t.sector) with
      | none => rw [hf] at hVg; cases hVg
      | some p =>
        have hmem := List.mem_of_find?_eq_some hf
        have hpred := List.find?_some hf
        have : p.1 = t.sector := by simpa using hpred
        rw [← this]
        exact List.mem_map_of_mem Prod.fst hmem
    rw [resolveSectorKey_of_mem this] at hres
    cases hres
  · have hmem : t.sector ∈ Vkeys := by
      unfold Vget at hVg
      cases hf : V.find? (fun p => p.1 == t.sector) with
      | none => rw [hf] at hVg; cases hVg
      | some p =>
        have hmem := List.mem_of_find?_eq_some hf
        have hpred := List.find?_some hf
        have : p.1 = t.sector := by simpa using hpred
        rw [← this]
        exact List.mem_map_of_mem Prod.fst hmem
    have hk2 : k = t.sector := by
      rw [resolveSectorKey_of_mem hmem] at hk
      cases hk
      rfl
    rw [hk2] at he'
    rw [hVg] at he'
    cases he'
    exact hout e hecol dd

/-- A transaction whose sector "Unknown_Bucket" matches no registry key, no
normalized key, and no key prefix. -/
def c7t : Txn := ⟨"Unknown_Bucket", "AAPL", 0, some 100, 0⟩

/-- Witness for C7: the "Unknown_Bucket" transaction leaves the Technology
weight unchanged. -/
theorem sector_resolution_chain_witness :
    weightsPre w1px ([] ++ c7t :: []) "Technology" 0 = weightsPre w1px ([] ++ []) "Technology" 0 :=
  ((sector_resolution_chain w1px c7t 100
    (by intro c hc d
        simp only [w1px, List.mem_cons, List.not_mem_nil] at hc
        push_neg at hc
        simp [w1px, hc.1, hc.2.1, hc.2.2])
    (by decide) rfl (by norm_num) (by decide) (by decide)).2.2.2
    (Or.inl (by decide))).2.2 [] [] "Technology" 0



/-! ## C10: fallback-resolved stocks are valued but not weighted -/

/-- A price table family for C10: `n` trading days, VGT at `q d`, the stock S
at `r d`, the benchmark at 1. -/
def c10px (n : Nat) (q r : Nat → ℚ) : PriceTable :=
  ⟨["VGT", "S", "^GSPC"], n, fun i => (i : Int),
   fun c d => if c = "VGT" then some (q d) else if c = "S" then some (r d)
     else if c = "^GSPC" then some 1 else none⟩

/-- A $A VGT purchase plus a $B stock S purchase whose sector
"Technology_Plus" resolves to Technology only via the prefix fallback, so the
per-sector weight loop's exact string match never tags S. -/
def c10ledger (A B : ℚ) : List Txn :=
  [⟨"Technology", "VGT", 0, some A, 0⟩, ⟨"Technology_Plus", "S", 0, some B, 0⟩]

/-- C10: on the parametric family (any horizon, any positive prices, any
amounts `0 < B < A`) the fallback-resolved stock's market value
`(B / r 0) * r d` is part of the portfolio value, yet every weight column
other than Technology is 0 and Technology's weight contains only the fund
value, so the pre-normalization row sum equals `100 - stockWeight` and is
strictly below 100. -/
theorem fallback_stock_uncounted (n : Nat) (A B : ℚ) (q r : Nat → ℚ)
    (hAB : B < A) (hB : 0 < B)
    (hq : ∀ d, 0 < q d) (hr : ∀ d, 0 < r d) (d : Nat) :
    portfolioValue (c10px n q r) (c10ledger A B) d =
      (A - B) / q 0 * q d + B / r 0 * r d ∧
    0 < portfolioValue (c10px n q r) (c10ledger A B) d ∧
    (∀ c ∈ categories, c ≠ "Technology" →
      weightsPre (c10px n q r) (c10ledger A B) c d = 0) ∧
    weightsPre (c10px n q r) (c10ledger A B) "Technology" d =
      ((A - B) / q 0 * q d) / portfolioValue (c10px n q r) (c10ledger A B) d * 100 ∧
    rowSumPre (c10px n q r) (c10ledger A B) d =
      100 - (B / r 0 * r d) / portfolioValue (c10px n q r) (c10ledger A B) d * 100 ∧
    rowSumPre (c10px n q r) (c10ledger A B) d < 100 := by
  have hA : 0 < A := hB.trans hAB
  have hnA : ¬ A ≤ 0 := not_le.mpr hA
  have hnB : ¬ B ≤ 0 := not_le.mpr hB
  have hu : computeUnits (c10px n q r) (c10ledger A B) =
      addFrom (addFrom (addFrom (fun _ _ => 0) "VGT" 0 (A / q 0)) "S" 0 (B / r 0))
        "VGT" 0 (-(B / q 0)) := by
    unfold computeUnits c10ledger
    simp only [List.foldl_cons, List.foldl_nil]
    simp +decide [applyTxn, stockLeg, sellLeg, c10px, Vvalues, V, resolveSectorKey,
      sectorMapGet, sectorMap, underscoreToSpace, firstToken, strStartsWith, Vkeys,
      Vget, hnA, hnB, hq 0, hr 0]
  have huV : ∀ dd, computeUnits (c10px n q r) (c10ledger A B) "VGT" dd = A / q 0 - B / q 0 := by
    intro dd
    rw [hu]
    simp +decide [addFrom, Nat.zero_le]
    ring
  have huS : ∀ dd, computeUnits (c10px n q r) (c10ledger A B) "S" dd = B / r 0 := by
    intro dd
    rw [hu]
    simp +decide [addFrom, Nat.zero_le]
  have huG : ∀ dd, computeUnits (c10px n q r) (c10ledger A B) "^GSPC" dd = 0 := by
    intro dd
    rw [hu]
    simp +decide [addFrom, Nat.zero_le]
  have hcell : portfolioValue (c10px n q r) (c10ledger A B) d =
      computeUnits (c10px n q r) (c10ledger A B) "VGT" d * q d +
      (computeUnits (c10px n q r) (c10ledger A B) "S" d * r d +
      (computeUnits (c10px n q r) (c10ledger A B) "^GSPC" d * 1 + 0)) + 0 := rfl
  have hpv : portfolioValue (c10px n q r) (c10ledger A B) d =
      (A - B) / q 0 * q d + B / r 0 * r d := by
    rw [hcell, huV d, huS d, huG d, sub_div]
    ring
  have hpvpos : 0 < portfolioValue (c10px n q r) (c10ledger A B) d := by
    rw [hpv]
    have h1 : 0 < (A - B) / q 0 * q d :=
      mul_pos (div_pos (by linarith) (hq 0)) (hq d)
    have h2 : 0 < B / r 0 * r d := mul_pos (div_pos hB (hr 0)) (hr d)
    linarith
  have hzero : ∀ c ∈ categories, c ≠ "Technology" →
      weightsPre (c10px n q r) (c10ledger A B) c d = 0 := by
    intro c hc hne
    rw [show categories = ["Technology", "Healthcare", "Financials",
      "Consumer_Discretionary", "Communication_Services", "Industrials",
      "Consumer_Staples", "Energy", "Materials", "Real_Estate", "Utilities",
      "Fixed Income", "Cash"] from rfl] at hc
    fin_cases hc
    · exact absurd rfl hne
    · rfl
    · rfl
    · rfl
    · rfl
    · rfl
    · rfl
    · rfl
    · rfl
    · rfl
    · rfl
    · show (0:ℚ) / portfolioValue (c10px n q r) (c10ledger A B) d * 100 = 0
      simp
    · show (0:ℚ) / portfolioValue (c10px n q r) (c10ledger A B) d * 100 = 0
      simp
  have htech : weightsPre (c10px n q r) (c10ledger A B) "Technology" d =
      ((A - B) / q 0 * q d) / portfolioValue (c10px n q r) (c10ledger A B) d * 100 := by
    have h0 : weightsPre (c10px n q r) (c10ledger A B) "Technology" d =
        (computeUnits (c10px n q r) (c10ledger A B) "VGT" d * q d) /
          portfolioValue (c10px n q r) (c10ledger A B) d * 100 := rfl
    rw [h0, huV d, sub_div]
  have hrow : rowSumPre (c10px n q r) (c10ledger A B) d =
      weightsPre (c10px n q r) (c10ledger A B) "Technology" d := by
    unfold rowSumPre
    rw [show categories = ["Technology", "Healthcare", "Financials",
      "Consumer_Discretionary", "Communication_Services", "Industrials",
      "Consumer_Staples", "Energy", "Materials", "Real_Estate", "Utilities",
      "Fixed Income", "Cash"] from rfl]
    simp only [List.map_cons, List.map_nil, List.sum_cons, List.sum_nil]
    rw [hzero "Healthcare" (by decide) (by decide),
      hzero "Financials" (by decide) (by decide),
      hzero "Consumer_Discretionary" (by decide) (by decide),
      hzero "Communication_Services" (by decide) (by decide),
      hzero "Industrials" (by decide) (by decide),
      hzero "Consumer_Staples" (by decide) (by decide),
      hzero "Energy" (by decide) (by decide),
      hzero "Materials" (by decide) (by decide),
      hzero "Real_Estate" (by decide) (by decide),
      hzero "Utilities" (by decide) (by decide),
      hzero "Fixed Income" (by decide) (by decide),
      hzero "Cash" (by decide) (by decide)]
    ring
  have hrow2 : rowSumPre (c10px n q r) (c10ledger A B) d =
      100 - (B / r 0 * r d) / portfolioValue (c10px n q r) (c10ledger A B) d * 100 := by
    have hne : (A - B) / q 0 * q d + B / r 0 * r d ≠ 0 := by
      rw [← hpv]
      exact ne_of_gt hpvpos
    rw [hrow, htech, hpv]
    set x := (A - B) / q 0 * q d with hx
    set y := B / r 0 * r d with hy
    field_simp
    ring
  have hstockpos : 0 < (B / r 0 * r d) /
      portfolioValue (c10px n q r) (c10ledger A B) d * 100 := by
    have h2 : 0 < B / r 0 * r d := mul_pos (div_pos hB (hr 0)) (hr d)
    positivity
  exact ⟨hpv, hpvpos, hzero, htech, hrow2, by rw [hrow2]; linarith⟩

/-- Witness for C10: with one day, unit prices, A = 2, B = 1 the
pre-normalization row sum is below 100 (it is 50). -/
theorem fallback_stock_uncounted_witness :
    rowSumPre (c10px 1 (fun _ => 1) (fun _ => 1)) (c10ledger 2 1) 0 < 100 :=
  (fallback_stock_uncounted 1 2 1 (fun _ => 1) (fun _ => 1) (by norm_num) (by norm_num)
    (fun _ => by norm_num) (fun _ => by norm_num) 0).2.2.2.2.2


end SMIC
